import Mathlib

/-!
Verification of the video split/upload/delete pipeline.

This file gives a shallow embedding, in Lean 4, of the algorithmic core of
the repository:

* the segmentation planner and per-segment duration computation of
  `splitVideo` (both the Next.js API route version and the standalone
  `split-and-upload.js` script version);
* the bounded-retry upload loop `uploadWithRetry` and the retryable-error
  classifier `isRetryable`;
* the ingestion orchestration of the upload `POST` handler
  (all-or-nothing record creation over `Promise.all`);
* `probeVideo`'s metadata extraction over parsed ffprobe output;
* the deletion reconciliation of the `DELETE` handler (prefix deletes,
  per-id `deleteWithRetry`, and the atomic record-removal decision);
* the seamless player's cumulative `offsets` table and `partForTime`.

Modelling conventions: JavaScript strings are modelled as `List Char`
(`Ident`); exact rational arithmetic (`ℚ`) stands in for JS floating-point
numbers; byte counts are `ℕ`; fallible operations return `Except`/`Option`;
the nondeterministic outside world (per-attempt outcomes of network calls,
on-disk sizes of ffmpeg-generated parts) is passed in explicitly as data.
-/

/-- JS strings are modelled as lists of characters. -/
abbrev Ident := List Char

/-- An error object surfaced by the object store: `{message, http_code}`
(the two fields the retry classifiers inspect). -/
structure CloudErr where
  message : Ident
  http_code : Nat
deriving DecidableEq, Repr

/-- `MIN_FILE_SIZE = 50 * 1024 * 1024` (minimum part size, bytes). -/
def MIN_FILE_SIZE : Nat := 50 * 1024 * 1024

/-- `TARGET_FILE_SIZE = 70 * 1024 * 1024` (optimal part size, bytes). -/
def TARGET_FILE_SIZE : Nat := 70 * 1024 * 1024

/-- `CLOUDINARY_LIMIT = 100 * 1024 * 1024` (per-object store limit, bytes). -/
def CLOUDINARY_LIMIT : Nat := 100 * 1024 * 1024

/-- `MAX_PARTS = 20`. -/
def MAX_PARTS : Nat := 20

/-- `MAX_RETRIES = 3`. -/
def MAX_RETRIES : Nat := 3

/-- JS `String.prototype.includes`: `containsSub pat s` is true iff `pat`
occurs as a contiguous substring of `s`. -/
def containsSub (pat : Ident) : Ident → Bool
  | [] => pat.isEmpty
  | c :: rest => pat.isPrefixOf (c :: rest) || containsSub pat rest

/-- `isRetryable` from the API route (upload and delete handlers):
the message, lower-cased, contains `'timeout'`, or the HTTP code is
503 or 504. -/
def isRetryable (e : CloudErr) : Bool :=
  containsSub "timeout".data (e.message.map Char.toLower)
    || e.http_code == 503 || e.http_code == 504

/-- The merge loop of `splitVideo`:
`while (segments > 1 && fileSize / segments < MIN_FILE_SIZE) segments--;`.
The float comparison `fileSize / segments < MIN_FILE_SIZE` is modelled
exactly as `fileSize < MIN_FILE_SIZE * segments`. -/
def mergeLoop (fileSize : Nat) : Nat → Nat
  | 0 => 0
  | 1 => 1
  | n + 2 =>
    if fileSize < MIN_FILE_SIZE * (n + 2) then mergeLoop fileSize (n + 1)
    else n + 2

/-- The segment-count computation of `splitVideo` (identical in the API
route and in `split-and-upload.js`):
`segments = Math.ceil(fileSize / TARGET_FILE_SIZE)`, clamped to
`MAX_PARTS`, then the undersized-average merge loop. -/
def planSegments (fileSize : Nat) : Nat :=
  let segments := (fileSize + TARGET_FILE_SIZE - 1) / TARGET_FILE_SIZE
  let segments := if MAX_PARTS < segments then MAX_PARTS else segments
  mergeLoop fileSize segments

/-- The API-route segmentation plan (`part_004`, `splitVideo`):
`segmentDuration = Math.max(1, Math.floor(duration / segments))`.
Returns `(segments, segmentDuration)`. -/
def splitPlan (fileSize : Nat) (duration : ℚ) : Nat × ℤ :=
  let segments := planSegments fileSize
  (segments, max 1 ⌊duration / (segments : ℚ)⌋)

/-- The standalone-script segmentation plan (`split-and-upload.js`,
`splitVideo`): `segmentDuration = Math.floor(duration / segments)` —
note: no `Math.max(1, …)` floor in this file. -/
def scriptSplitPlan (fileSize : Nat) (duration : ℚ) : Nat × ℤ :=
  let segments := planSegments fileSize
  (segments, ⌊duration / (segments : ℚ)⌋)

/-- The post-generation size check of `splitVideo`: if any generated
part's on-disk size exceeds `CLOUDINARY_LIMIT` the split throws
(`'Parts exceed 100MB limit'`); otherwise the parts are returned.
The on-disk sizes produced by ffmpeg are passed in as data. -/
def splitParts (partSizes : List Nat) : Except Ident (List Nat) :=
  if partSizes.any (fun s => CLOUDINARY_LIMIT < s) then
    .error "Parts exceed 100MB limit".data
  else
    .ok partSizes

/-- The retry loop of `uploadWithRetry` (`part_004`), starting at a given
attempt index. `outcomes n` is the result the store would return for
attempt `n`. Mirrors:
`for (attempt = 0; attempt <= MAX_RETRIES; attempt++) { try … return …
 catch (e) { if (attempt < MAX_RETRIES && isRetryable(e)) continue; throw e } }`. -/
def uploadGo {α : Type} (outcomes : Nat → Except CloudErr α) (attempt : Nat) :
    Except CloudErr α :=
  match outcomes attempt with
  | .ok r => .ok r
  | .error e =>
    if h : attempt < MAX_RETRIES ∧ isRetryable e = true then
      uploadGo outcomes (attempt + 1)
    else
      .error e
termination_by MAX_RETRIES + 1 - attempt
decreasing_by omega

/-- `uploadWithRetry`: run the retry loop from attempt 0. -/
def uploadWithRetry {α : Type} (outcomes : Nat → Except CloudErr α) :
    Except CloudErr α :=
  uploadGo outcomes 0

/-- `Promise.all` over already-settled computations: the list of results
if every element resolved, else the first rejection. -/
def promiseAll {ε α : Type} : List (Except ε α) → Except ε (List α)
  | [] => .ok []
  | .error e :: _ => .error e
  | .ok a :: rest => (promiseAll rest).map (a :: ·)

/-- The multipart branch of the upload `POST` handler: every part is
uploaded via `uploadWithRetry` and the results are joined with
`Promise.all`. `parts` carries, for each part, its per-attempt outcomes. -/
def ingestMultipart {α : Type} (parts : List (Nat → Except CloudErr α)) :
    Except CloudErr (List α) :=
  promiseAll (parts.map uploadWithRetry)

/-- The persistence decision of the `POST` handler: `Video.create` (line
334 of `part_004`) is reached only when `Promise.all(uploads)` resolved,
i.e. every part upload succeeded; any rejection is caught and the handler
returns an error response with no record created. `some rs` models the
persisted record's parts; `none` models "no record persisted". -/
def persistedRecord {α : Type} (parts : List (Nat → Except CloudErr α)) :
    Option (List α) :=
  match ingestMultipart parts with
  | .ok rs => some rs
  | .error _ => none

/-! ## Deletion reconciliation (`DELETE` handler, `route.ts`) -/

/-- One bounded-retry per-id delete (`deleteWithRetry` in `route.ts`):
iteration `i` of `for (i = 0; i < attempts; i++)`, with `fuel = attempts - i`
remaining iterations. On success returns `true`; on a non-retryable error,
or a retryable error on the last iteration (`i == attempts - 1`), returns
`false`. `outcome i = none` models a successful `deleteResources([id])`
call at iteration `i`; `some e` models a thrown error. -/
def deleteGo (outcome : Nat → Option CloudErr) : Nat → Nat → Bool
  | _, 0 => false
  | i, fuel + 1 =>
    match outcome i with
    | none => true
    | some e =>
      if 0 < fuel ∧ isRetryable e = true then deleteGo outcome (i + 1) fuel
      else false

/-- `deleteWithRetry(publicId, attempts = 3)`: the per-id delete with the
default 3 attempts, reported as a success Boolean (the handler only reads
`res.success`). -/
def deleteWithRetry (outcome : Nat → Option CloudErr) : Bool :=
  deleteGo outcome 0 3

/-- The multipart-part regex of the `DELETE` handler:
`id.match(/^(.*)-part-\d{3}$/)`, returning the captured base when the id
ends in `-part-` followed by exactly three digits. -/
def multipartBase (id : Ident) : Option Ident :=
  let n := id.length
  if 9 ≤ n ∧ (id.drop (n - 3)).all Char.isDigit = true
      ∧ (id.drop (n - 9)).take 6 = "-part-".data then
    some (id.take (n - 9))
  else
    none

/-- A JS `Set` built by inserting the elements of `l` in order and then
`Array.from`: first occurrences, in insertion order. -/
def jsSetList (l : List Ident) : List Ident :=
  l.foldl (fun acc x => if x ∈ acc then acc else acc ++ [x]) []

/-- The environment of a delete request: whether
`deleteResourcesByPrefix p` succeeds for each prefix `p`, and the
per-attempt outcome of `deleteResources([id])` for each id. -/
structure ReconcileEnv where
  prefixDeleteOk : Ident → Bool
  idDeleteOutcome : Ident → Nat → Option CloudErr

/-- The result of the reconciliation portion of the `DELETE` handler:
the accumulated `failedIds`, the ids that were given per-id
`deleteWithRetry` attempts (`remainingIds` in the code), and whether
`Video.deleteOne` was reached (it is reached iff `failedIds.length == 0`). -/
structure ReconcileResult where
  failedIds : List Ident
  attemptedIds : List Ident
  recordRemoved : Bool
deriving DecidableEq, Repr

/-- The candidate multipart prefix set of the `DELETE` handler: the set of
regex-captured bases of the (deduplicated) candidate ids. -/
def candidateBases (rawIds : List Ident) : List Ident :=
  jsSetList ((jsSetList rawIds).filterMap multipartBase)

/-- The deletion reconciliation of the `DELETE` handler (lines 163–225 of
`route.ts`): dedupe the candidate ids, collect multipart prefixes, attempt
one prefix delete per prefix (recording failed prefixes in `failedIds`),
then run `deleteWithRetry` on every id that does not start with any
collected prefix (successful or not), recording failures; the DB record is
removed iff `failedIds` ends up empty. -/
def reconcile (env : ReconcileEnv) (rawIds : List Ident) : ReconcileResult :=
  let ids := jsSetList rawIds
  let bases := candidateBases rawIds
  let failedBases := bases.filter (fun p => !(env.prefixDeleteOk p))
  let remainingIds := ids.filter (fun id => !(bases.any (fun p => p.isPrefixOf id)))
  let failedRemaining :=
    remainingIds.filter (fun id => !(deleteWithRetry (env.idDeleteOutcome id)))
  let failedIds := failedBases ++ failedRemaining
  { failedIds := failedIds
    attemptedIds := remainingIds
    recordRemoved := failedIds.isEmpty }

/-- An identifier is confirmed deleted when a successful prefix delete
covers it (it starts with a prefix whose `deleteResourcesByPrefix`
succeeded) or its own `deleteWithRetry` succeeded. -/
def confirmedDeleted (env : ReconcileEnv) (rawIds : List Ident) (id : Ident) : Prop :=
  (∃ p ∈ candidateBases rawIds, env.prefixDeleteOk p = true ∧ p.isPrefixOf id = true)
    ∨ deleteWithRetry (env.idDeleteOutcome id) = true

/-! ## Prober (`probeVideo`, `part_004` lines 143–175) -/

/-- One entry of the ffprobe `streams` array, restricted to the fields
`probeVideo` reads. `avg_frame_rate` is the parsed `num/den` pair
(`none` models a missing/falsy field, defaulted to `'0/1'`). -/
structure StreamInfo where
  codec_type : Ident
  codec_name : Option Ident
  width : Option Nat
  height : Option Nat
  avg_frame_rate : Option (ℤ × ℤ)
  bit_rate : Option ℚ

/-- The ffprobe `format` section (`data.format || {}`). -/
structure FormatInfo where
  duration : Option ℚ
  bit_rate : Option ℚ

/-- Parsed ffprobe JSON output. -/
structure ProbeData where
  streams : List StreamInfo
  format : FormatInfo

/-- The value `probeVideo` resolves with. -/
structure ProbeResult where
  duration : ℚ
  width : Nat
  height : Nat
  videoCodec : Option Ident
  audioCodec : Option Ident
  frameRate : ℚ
  bitRate : ℚ

/-- `probeVideo(filePath)`: `.error` models a failing ffprobe subprocess or
unparseable JSON (`JSON.parse` throwing); on parsed data it selects the
first video and audio streams, derives the frame rate from the rational
`num/den` (yielding `0` when `den` is falsy), and defaults every missing
numeric field to `0` — in particular a missing/zero `format.duration`
yields `duration = 0` with no error. -/
def probeVideo (raw : Except Ident ProbeData) : Except Ident ProbeResult :=
  match raw with
  | .error e => .error e
  | .ok data =>
    let videoStream := data.streams.find? (fun s => s.codec_type == "video".data)
    let audioStream := data.streams.find? (fun s => s.codec_type == "audio".data)
    let nd := (videoStream.bind (fun s => s.avg_frame_rate)).getD (0, 1)
    let frameRate : ℚ :=
      if nd.2 ≠ 0 then (round ((nd.1 : ℚ) / (nd.2 : ℚ) * 1000) : ℚ) / 1000 else 0
    .ok
      { duration := data.format.duration.getD 0
        width := (videoStream.bind (fun s => s.width)).getD 0
        height := (videoStream.bind (fun s => s.height)).getD 0
        videoCodec := videoStream.bind (fun s => s.codec_name)
        audioCodec := audioStream.bind (fun s => s.codec_name)
        frameRate := frameRate
        bitRate :=
          ((videoStream.bind (fun s => s.bit_rate)).orElse
            (fun _ => data.format.bit_rate)).getD 0 }

/-! ## Seamless player (`part_008`, `SeamlessPlayer`) -/

/-- One playable part as the player sees it. -/
structure VideoPart where
  secureUrl : Ident
  duration : ℚ

/-- The `sources` memo: the multi-part list when more than one part is
present, else the single main url spanning the whole duration. -/
def sourcesFor (url : Ident) (parts : Option (List VideoPart)) (totalDuration : ℚ) :
    List VideoPart :=
  match parts with
  | some ps => if 1 < ps.length then ps else [⟨url, totalDuration⟩]
  | none => [⟨url, totalDuration⟩]

/-- The builder behind the `offsets` memo: starting from an accumulated
offset, emit the cumulative start time of every remaining part, then the
grand total; `offsets = [0, d0, d0+d1, …, Σd]`. -/
def offsetsFrom (acc : ℚ) : List VideoPart → List ℚ
  | [] => [acc]
  | s :: rest => acc :: offsetsFrom (acc + s.duration) rest

/-- The `offsets` memo: `arr = [0]; arr.push(arr[i] + sources[i].duration)`
for each `i`, so `offsets[i] = Σ durations[0..i-1]` and
`offsets[sources.length]` is the total duration. -/
def offsets (sources : List VideoPart) : List ℚ :=
  offsetsFrom 0 sources

/-- The countdown loop of `partForTime`: `partForTimeGo sources t (i+1)`
checks index `i` (`if (t >= offsets[i]) return i`) and falls through to
smaller indices, returning `0` when every check failed. -/
def partForTimeGo (sources : List VideoPart) (t : ℚ) : Nat → Nat
  | 0 => 0
  | i + 1 =>
    if (offsets sources).getD i 0 ≤ t then i else partForTimeGo sources t i

/-- `partForTime(t)`: scan `i = sources.length - 1 … 0` and return the
first (i.e. greatest) `i` with `offsets[i] ≤ t`, else `0`. -/
def partForTime (sources : List VideoPart) (t : ℚ) : Nat :=
  partForTimeGo sources t sources.length

/-- The total duration of the source list (the last entry of `offsets`). -/
def sumDur (sources : List VideoPart) : ℚ :=
  (sources.map VideoPart.duration).sum

/-! ## Concrete environments used in witnesses and counterexamples -/

/-- A delete environment in which every remote operation succeeds. -/
def allOkEnv : ReconcileEnv :=
  { prefixDeleteOk := fun _ => true
    idDeleteOutcome := fun _ _ => none }

/-- A delete environment in which every prefix delete fails (while per-id
deletes would succeed, were they attempted). -/
def prefixFailEnv : ReconcileEnv :=
  { prefixDeleteOk := fun _ => false
    idDeleteOutcome := fun _ _ => none }

/-- ffprobe output with no streams and an absent `format.duration`
(e.g. a stream ffprobe can read but reports no duration for). -/
def emptyProbeData : ProbeData :=
  { streams := []
    format := { duration := none, bit_rate := none } }

/-! ## Helper lemmas: segmentation planner -/

/-- The merge loop, run on `n + 2` segments over a file strictly larger
than twice the minimum part size, returns between 2 and `n + 2` segments
with average part size at least the minimum. -/
theorem mergeLoop_spec (fileSize : Nat) (hbig : MIN_FILE_SIZE * 2 < fileSize) :
    ∀ n : Nat, 2 ≤ mergeLoop fileSize (n + 2) ∧ mergeLoop fileSize (n + 2) ≤ n + 2 ∧
      MIN_FILE_SIZE * mergeLoop fileSize (n + 2) ≤ fileSize
  | 0 => by
    show 2 ≤ mergeLoop fileSize 2 ∧ mergeLoop fileSize 2 ≤ 2 ∧
      MIN_FILE_SIZE * mergeLoop fileSize 2 ≤ fileSize
    have h2 : mergeLoop fileSize 2
        = if fileSize < MIN_FILE_SIZE * 2 then 1 else 2 := rfl
    rw [h2]
    split
    · omega
    · refine ⟨by norm_num, le_refl _, by omega⟩
  | n + 1 => by
    have h2 : mergeLoop fileSize (n + 1 + 2)
        = if fileSize < MIN_FILE_SIZE * (n + 3) then mergeLoop fileSize (n + 2)
          else n + 3 := rfl
    show 2 ≤ mergeLoop fileSize (n + 1 + 2) ∧ mergeLoop fileSize (n + 1 + 2) ≤ n + 3 ∧
      MIN_FILE_SIZE * mergeLoop fileSize (n + 1 + 2) ≤ fileSize
    rw [h2]
    split
    · obtain ⟨ha, hb, hc⟩ := mergeLoop_spec fileSize hbig n
      exact ⟨ha, by omega, hc⟩
    · refine ⟨by omega, le_refl _, by omega⟩

/-- For an oversized file, the planner returns between 2 and `MAX_PARTS`
segments whose average size is at least `MIN_FILE_SIZE`. -/
theorem planSegments_spec (fileSize : Nat) (h : CLOUDINARY_LIMIT < fileSize) :
    2 ≤ planSegments fileSize ∧ planSegments fileSize ≤ MAX_PARTS ∧
      MIN_FILE_SIZE * planSegments fileSize ≤ fileSize := by
  have hbig : MIN_FILE_SIZE * 2 < fileSize := by
    unfold MIN_FILE_SIZE CLOUDINARY_LIMIT at *; omega
  have hceil : 2 ≤ (fileSize + TARGET_FILE_SIZE - 1) / TARGET_FILE_SIZE := by
    rw [Nat.le_div_iff_mul_le (by unfold TARGET_FILE_SIZE; norm_num)]
    unfold TARGET_FILE_SIZE CLOUDINARY_LIMIT at *; omega
  have hplan : planSegments fileSize
      = mergeLoop fileSize
          (if MAX_PARTS < (fileSize + TARGET_FILE_SIZE - 1) / TARGET_FILE_SIZE
            then MAX_PARTS
            else (fileSize + TARGET_FILE_SIZE - 1) / TARGET_FILE_SIZE) := rfl
  set s0 := (fileSize + TARGET_FILE_SIZE - 1) / TARGET_FILE_SIZE with hs0
  have h2 : 2 ≤ (if MAX_PARTS < s0 then MAX_PARTS else s0) := by
    split
    · norm_num [MAX_PARTS]
    · exact hceil
  have hcap : (if MAX_PARTS < s0 then MAX_PARTS else s0) ≤ MAX_PARTS := by
    split <;> omega
  obtain ⟨n, hn⟩ : ∃ n, (if MAX_PARTS < s0 then MAX_PARTS else s0) = n + 2 :=
    ⟨(if MAX_PARTS < s0 then MAX_PARTS else s0) - 2, by omega⟩
  rw [hplan, hn]
  obtain ⟨ha, hb, hc⟩ := mergeLoop_spec fileSize hbig n
  exact ⟨ha, by omega, hc⟩

/-! ## Claim theorems: splitter -/

/-- C3: for every asset with `fileSize > CLOUDINARY_LIMIT`, the
segmentation plan yields `1 < partCount ≤ MAX_PARTS` with average part
size `fileSize / partCount` at least `MIN_FILE_SIZE` (the merge loop
decrements until the floor is satisfied or one segment remains — never
reached here since the file exceeds twice the minimum), and if any
physically generated part's on-disk size still exceeds the store limit,
the split operation fails instead of returning the parts. -/
theorem split_plan_bounds (fileSize : Nat) (h : CLOUDINARY_LIMIT < fileSize) :
    1 < planSegments fileSize ∧ planSegments fileSize ≤ MAX_PARTS ∧
      (MIN_FILE_SIZE : ℚ) ≤ (fileSize : ℚ) / (planSegments fileSize : ℚ) ∧
      ∀ partSizes : List Nat, (∃ s ∈ partSizes, CLOUDINARY_LIMIT < s) →
        ∀ l, splitParts partSizes ≠ .ok l := by
  obtain ⟨ha, hb, hc⟩ := planSegments_spec fileSize h
  refine ⟨by omega, hb, ?_, ?_⟩
  · rw [le_div_iff₀ (by exact_mod_cast lt_of_lt_of_le two_pos ha)]
    exact_mod_cast hc
  · intro partSizes hex l hok
    have hany : partSizes.any (fun s => decide (CLOUDINARY_LIMIT < s)) = true := by
      rw [List.any_eq_true]
      obtain ⟨s, hs, hlim⟩ := hex
      exact ⟨s, hs, by simpa using hlim⟩
    simp [splitParts, hany] at hok

/-- Witness for `split_plan_bounds` at the concrete 220 MB input. -/
theorem split_plan_bounds_witness :
    CLOUDINARY_LIMIT < 230686720 ∧
      (1 < planSegments 230686720 ∧ planSegments 230686720 ≤ MAX_PARTS ∧
        (MIN_FILE_SIZE : ℚ) ≤ (230686720 : ℚ) / (planSegments 230686720 : ℚ) ∧
        ∀ partSizes : List Nat, (∃ s ∈ partSizes, CLOUDINARY_LIMIT < s) →
          ∀ l, splitParts partSizes ≠ .ok l) := by
  refine ⟨by decide, ?_⟩
  have := split_plan_bounds 230686720 (by decide)
  exact_mod_cast this

/-- C7: the concrete scenario — duration 185 s, size 220 MB, target 70 MB,
min 50 MB, max 20 parts: `segments = ceil(220/70) = 4`, the merge loop
leaves 4 unchanged (220/4 = 55 MB ≥ 50 MB), and the per-segment duration
is `max(1, ⌊185/4⌋) = 46`. -/
theorem split_plan_scenario : splitPlan (220 * 1024 * 1024) 185 = (4, 46) := by
  have h4 : planSegments (220 * 1024 * 1024) = 4 := by decide
  have hf : ⌊(185 : ℚ) / ((4 : ℕ) : ℚ)⌋ = 46 := by
    rw [show ((4 : ℕ) : ℚ) = 4 by norm_num]
    rw [Int.floor_eq_iff]
    norm_num
  simp only [splitPlan, h4, hf]
  norm_num

/-- C6 counterexample: for the standalone script's splitter
(`split-and-upload.js` line 79) the per-segment duration is
`⌊duration / segments⌋` with no `max(1, …)` floor: a 150 MB file whose
probed duration is 0 yields per-segment duration 0, while
`max(1, ⌊0 / segments⌋)` — what the claim asserts for every splitter —
is 1 (as the API route version indeed computes). -/
theorem script_segment_duration_zero :
    scriptSplitPlan 157286400 0 = (3, 0) ∧ splitPlan 157286400 0 = (3, 1)
      ∧ (0 : ℤ) ≠ max 1 ⌊(0 : ℚ) / ((3 : ℕ) : ℚ)⌋ := by
  have h3 : planSegments 157286400 = 3 := by decide
  have hf : ⌊(0 : ℚ) / ((3 : ℕ) : ℚ)⌋ = 0 := by norm_num
  refine ⟨?_, ?_, ?_⟩
  · simp only [scriptSplitPlan, h3, hf]
  · simp only [splitPlan, h3, hf]; norm_num
  · rw [hf]; norm_num

/-- C6 (amended): the API-route splitter's per-segment duration is
`max(1, ⌊duration / segments⌋)` and hence always at least 1 — a zero
probed duration never yields a zero or negative per-segment duration —
while the standalone script's splitter computes the bare
`⌊duration / segments⌋`, which lacks that floor. -/
theorem segment_duration_floor (fileSize : Nat) (duration : ℚ) :
    (splitPlan fileSize duration).2
        = max 1 ⌊duration / ((planSegments fileSize : ℕ) : ℚ)⌋
      ∧ 1 ≤ (splitPlan fileSize duration).2
      ∧ (scriptSplitPlan fileSize duration).2
        = ⌊duration / ((planSegments fileSize : ℕ) : ℚ)⌋ :=
  ⟨rfl, le_max_left _ _, rfl⟩

/-! ## Helper lemmas: uploader retry loop -/

/-- Unfolding: a successful attempt returns its result. -/
theorem uploadGo_ok {α : Type} (outcomes : Nat → Except CloudErr α) (a : Nat)
    (r : α) (hout : outcomes a = .ok r) : uploadGo outcomes a = .ok r := by
  rw [uploadGo, hout]

/-- Unfolding: a retryable failure within the budget recurses. -/
theorem uploadGo_retry {α : Type} (outcomes : Nat → Except CloudErr α) (a : Nat)
    (e : CloudErr) (hout : outcomes a = .error e)
    (h : a < MAX_RETRIES ∧ isRetryable e = true) :
    uploadGo outcomes a = uploadGo outcomes (a + 1) := by
  rw [uploadGo, hout]
  dsimp only
  rw [dif_pos h]

/-- Unfolding: a failure that is non-retryable or out of budget throws. -/
theorem uploadGo_throw {α : Type} (outcomes : Nat → Except CloudErr α) (a : Nat)
    (e : CloudErr) (hout : outcomes a = .error e)
    (hnot : ¬(a < MAX_RETRIES ∧ isRetryable e = true)) :
    uploadGo outcomes a = .error e := by
  rw [uploadGo, hout]
  dsimp only
  rw [dif_neg hnot]

/-- Characterization of the retry loop from any starting attempt `a`:
there is a stopping attempt `n` between `a` and `MAX_RETRIES`, every
attempt strictly before it failed retryably, the loop's result is exactly
attempt `n`'s outcome, and if attempt `n` failed then either the retry
budget was exhausted or the failure was not retryable. -/
theorem uploadGo_spec {α : Type} (outcomes : Nat → Except CloudErr α) :
    ∀ k a, MAX_RETRIES - a = k → a ≤ MAX_RETRIES →
      ∃ n, a ≤ n ∧ n ≤ MAX_RETRIES ∧
        (∀ i, a ≤ i → i < n → ∃ e, outcomes i = .error e ∧ isRetryable e = true) ∧
        uploadGo outcomes a = outcomes n ∧
        (∀ e, outcomes n = .error e → n = MAX_RETRIES ∨ isRetryable e = false) := by
  intro k
  induction k with
  | zero =>
    intro a hk ha
    match hout : outcomes a with
    | .ok r =>
      refine ⟨a, le_refl _, ha, by omega, ?_, ?_⟩
      · rw [uploadGo_ok outcomes a r hout, hout]
      · intro e he
        rw [hout] at he
        exact absurd he (by simp)
    | .error e =>
      refine ⟨a, le_refl _, ha, by omega, ?_, fun e' _ => Or.inl (by omega)⟩
      rw [uploadGo_throw outcomes a e hout (by intro hcon; omega), hout]
  | succ k ih =>
    intro a hk ha
    have halt : a < MAX_RETRIES := by omega
    match hout : outcomes a with
    | .ok r =>
      refine ⟨a, le_refl _, ha, by omega, ?_, ?_⟩
      · rw [uploadGo_ok outcomes a r hout, hout]
      · intro e he
        rw [hout] at he
        exact absurd he (by simp)
    | .error e =>
      by_cases hr : isRetryable e = true
      · obtain ⟨n, hn1, hn2, hn3, hn4, hn5⟩ := ih (a + 1) (by omega) (by omega)
        refine ⟨n, by omega, hn2, ?_, ?_, hn5⟩
        · intro i hi1 hi2
          rcases Nat.eq_or_lt_of_le hi1 with heq | hlt
          · subst heq
            exact ⟨e, hout, hr⟩
          · exact hn3 i hlt hi2
        · rw [uploadGo_retry outcomes a e hout ⟨halt, hr⟩]
          exact hn4
      · refine ⟨a, le_refl _, ha, by omega, ?_, ?_⟩
        · rw [uploadGo_throw outcomes a e hout (by intro hcon; exact hr hcon.2), hout]
        · intro e' he'
          rw [hout] at he'
          cases he'
          exact Or.inr (by simpa using hr)

/-! ## Claim theorems: uploader and ingestion -/

/-- C5: for every upload, the Uploader stops at some attempt
`n ≤ MAX_RETRIES` (hence at most `MAX_RETRIES + 1` total tries), every
attempt before `n` — i.e. every retry it performed — was triggered by a
failure classified retryable (`isRetryable`: message contains `'timeout'`
after lower-casing, or HTTP code 503/504), the overall result is exactly
attempt `n`'s outcome (so a stopping failure propagates as-is), and a
failure at `n` is either non-retryable (immediate propagation) or the
budget is exhausted (`n = MAX_RETRIES`). -/
theorem uploadWithRetry_bounded {α : Type} (outcomes : Nat → Except CloudErr α) :
    ∃ n, n ≤ MAX_RETRIES ∧
      (∀ i, i < n → ∃ e, outcomes i = .error e ∧ isRetryable e = true) ∧
      uploadWithRetry outcomes = outcomes n ∧
      (∀ e, outcomes n = .error e → n = MAX_RETRIES ∨ isRetryable e = false) := by
  obtain ⟨n, _, h2, h3, h4, h5⟩ :=
    uploadGo_spec outcomes MAX_RETRIES 0 (by omega) (by omega)
  exact ⟨n, h2, fun i hi => h3 i (Nat.zero_le i) hi, h4, h5⟩

/-- `promiseAll` resolves exactly when every element resolved. -/
theorem promiseAll_ok_iff {ε α : Type} :
    ∀ l : List (Except ε α),
      (∃ rs, promiseAll l = .ok rs) ↔ ∀ x ∈ l, ∃ a, x = .ok a := by
  intro l
  induction l with
  | nil => simp [promiseAll]
  | cons x rest ih =>
    cases x with
    | error e => simp [promiseAll]
    | ok a =>
      constructor
      · rintro ⟨rs, hrs⟩
        intro x hx
        rcases List.mem_cons.mp hx with rfl | hx'
        · exact ⟨a, rfl⟩
        · rcases hres : promiseAll rest with e' | rs'
          · rw [promiseAll, hres] at hrs
            simp [Except.map] at hrs
          · exact (ih.mp ⟨rs', hres⟩) x hx'
      · intro hall
        rcases ih.mpr (fun x hx => hall x (List.mem_cons_of_mem _ hx)) with ⟨rs', hrs'⟩
        exact ⟨a :: rs', by rw [promiseAll, hrs']; rfl⟩

/-- C2: ingestion is all-or-nothing — no record is persisted exactly when
some part's `uploadWithRetry` failed permanently, and a persisted record
implies every part upload succeeded. -/
theorem ingest_all_or_nothing {α : Type} (parts : List (Nat → Except CloudErr α)) :
    (persistedRecord parts = none ↔ ∃ f ∈ parts, ∃ e, uploadWithRetry f = .error e)
      ∧ ∀ rs, persistedRecord parts = some rs →
          ∀ f ∈ parts, ∃ a, uploadWithRetry f = .ok a := by
  rcases hI : ingestMultipart parts with e | rs
  · have hnone : persistedRecord parts = none := by simp [persistedRecord, hI]
    constructor
    · rw [hnone]
      constructor
      · intro _
        have hno : ¬ ∃ rs, promiseAll (parts.map uploadWithRetry) = .ok rs := by
          rw [show promiseAll (parts.map uploadWithRetry) = ingestMultipart parts
            from rfl, hI]
          simp
        have hnall := (not_iff_not.mpr (promiseAll_ok_iff (parts.map uploadWithRetry))).mp hno
        push_neg at hnall
        obtain ⟨x, hx, hxne⟩ := hnall
        obtain ⟨f, hf, rfl⟩ := List.mem_map.mp hx
        rcases hcase : uploadWithRetry f with e' | a'
        · exact ⟨f, hf, e', hcase⟩
        · exact absurd hcase (hxne a')
      · intro _
        rfl
    · intro rs hrs
      rw [hnone] at hrs
      exact absurd hrs (by simp)
  · have hsome : persistedRecord parts = some rs := by simp [persistedRecord, hI]
    have hall : ∀ x ∈ parts.map uploadWithRetry, ∃ a, x = .ok a :=
      (promiseAll_ok_iff _).mp ⟨rs, hI⟩
    constructor
    · rw [hsome]
      constructor
      · intro h
        exact absurd h (by simp)
      · rintro ⟨f, hf, e', he'⟩
        exfalso
        obtain ⟨a, ha⟩ := hall _ (List.mem_map_of_mem _ hf)
        rw [he'] at ha
        exact absurd ha (by simp)
    · intro rs' _ f hf
      exact hall _ (List.mem_map_of_mem _ hf)

/-! ## Claim theorems: deletion reconciliation -/

/-- C1: deletion is atomic at the record level — the DB record is removed
iff the reconciliation's `failedIds` list is empty (a nonempty `failedIds`
is returned with the record untouched), and whenever the record is removed
every candidate identifier was confirmed deleted (covered by a successful
prefix delete, or its own per-id delete succeeded). -/
theorem reconcile_record_atomic (env : ReconcileEnv) (rawIds : List Ident) :
    ((reconcile env rawIds).recordRemoved = true ↔ (reconcile env rawIds).failedIds = [])
      ∧ ((reconcile env rawIds).recordRemoved = true →
          ∀ id ∈ jsSetList rawIds, confirmedDeleted env rawIds id) := by
  set ids := jsSetList rawIds with hids
  set bases := candidateBases rawIds with hbases
  set failedBases := bases.filter (fun p => !(env.prefixDeleteOk p)) with hfb
  set remainingIds :=
    ids.filter (fun id => !(bases.any (fun p => p.isPrefixOf id))) with hrem
  set failedRemaining :=
    remainingIds.filter (fun id => !(deleteWithRetry (env.idDeleteOutcome id))) with hfr
  have hfail : (reconcile env rawIds).failedIds = failedBases ++ failedRemaining := rfl
  have hrec : (reconcile env rawIds).recordRemoved
      = (failedBases ++ failedRemaining).isEmpty := rfl
  have hiff : (reconcile env rawIds).recordRemoved = true
      ↔ (reconcile env rawIds).failedIds = [] := by
    rw [hrec, hfail, List.isEmpty_iff]
  refine ⟨hiff, ?_⟩
  intro hremoved id hid
  have hnil : failedBases ++ failedRemaining = [] := hfail ▸ hiff.mp hremoved
  have hfb_nil : failedBases = [] := (List.append_eq_nil.mp hnil).1
  have hfr_nil : failedRemaining = [] := (List.append_eq_nil.mp hnil).2
  have hbase_ok : ∀ p ∈ bases, env.prefixDeleteOk p = true := by
    intro p hp
    have hnp := List.filter_eq_nil_iff.mp hfb_nil p hp
    simpa using hnp
  unfold confirmedDeleted
  rw [← hbases]
  by_cases hcov : ∃ p ∈ bases, p.isPrefixOf id = true
  · obtain ⟨p, hp, hpref⟩ := hcov
    exact Or.inl ⟨p, hp, hbase_ok p hp, hpref⟩
  · have hmem : id ∈ remainingIds := by
      rw [hrem, List.mem_filter]
      refine ⟨hid, ?_⟩
      rw [Bool.not_eq_true']
      rw [← Bool.not_eq_true, List.any_eq_true]
      exact hcov
    have hdel := List.filter_eq_nil_iff.mp hfr_nil id hmem
    right
    simpa using hdel

/-- C4 (code bug): evaluation at the failing input. The candidate set is
the single id `"v-part-001"`, whose prefix delete (prefix `"v"`) fails
while its per-id delete would succeed. The handler's
`remainingIds = ids.filter(id => !prefixes.some(p => id.startsWith(p)))`
excludes the id because it matches the (failed) prefix, so no per-id
delete is attempted (`attemptedIds = []`) even though the id was not
covered by a successful prefix delete — contradicting the claim (and the
code's own comment "we'll still try explicit ids"); only the bare prefix
is reported in `failedIds`. -/
theorem reconcile_skips_ids_under_failed_prefix :
    multipartBase "v-part-001".data = some "v".data
      ∧ prefixFailEnv.prefixDeleteOk "v".data = false
      ∧ deleteWithRetry (prefixFailEnv.idDeleteOutcome "v-part-001".data) = true
      ∧ (reconcile prefixFailEnv ["v-part-001".data]).attemptedIds = []
      ∧ (reconcile prefixFailEnv ["v-part-001".data]).failedIds = ["v".data]
      ∧ (reconcile prefixFailEnv ["v-part-001".data]).recordRemoved = false := by
  refine ⟨by decide, rfl, rfl, by decide, by decide, by decide⟩

/-! ## Claim theorems: prober -/

/-- C8 counterexample: on parseable ffprobe output whose format section
reports no duration (`Number(format.duration || 0) = 0`), `probeVideo`
returns a *successful* result with `durationSeconds = 0` — it does not
fail on zero duration, contradicting the claimed contract. -/
theorem probeVideo_zero_duration_success :
    probeVideo (.ok emptyProbeData)
      = .ok { duration := 0, width := 0, height := 0, videoCodec := none,
              audioCodec := none, frameRate := 0, bitRate := 0 } := by
  simp only [probeVideo, emptyProbeData]
  norm_num

/-- C8 (amended): `probeVideo` fails exactly when the ffprobe
subprocess/JSON parse fails; on any parsed data it always succeeds, with
`durationSeconds = format.duration` defaulted to `0` when missing — in
particular a zero probed duration is returned as a successful result, not
a `ProbeError`. -/
theorem probeVideo_fails_only_on_parse (data : ProbeData) (e : Ident) :
    (∃ r, probeVideo (.ok data) = .ok r ∧ r.duration = data.format.duration.getD 0)
      ∧ probeVideo (.error e) = .error e :=
  ⟨⟨_, rfl, rfl⟩, rfl⟩

/-! ## Helper lemmas: seamless player -/

/-- The offsets table has one more entry than the source list. -/
theorem offsetsFrom_length (acc : ℚ) :
    ∀ l : List VideoPart, (offsetsFrom acc l).length = l.length + 1 := by
  intro l
  induction l generalizing acc with
  | nil => rfl
  | cons p rest ih => simp [offsetsFrom, ih]

/-- The first offset is the accumulator. -/
theorem offsetsFrom_getD_zero (acc : ℚ) (l : List VideoPart) :
    (offsetsFrom acc l).getD 0 0 = acc := by
  cases l <;> rfl

/-- `offsets[0] = 0`. -/
theorem offsets_getD_zero (sources : List VideoPart) :
    (offsets sources).getD 0 0 = 0 :=
  offsetsFrom_getD_zero 0 sources

/-- The last offset is the accumulator plus the total duration. -/
theorem offsetsFrom_getD_last (acc : ℚ) :
    ∀ l : List VideoPart,
      (offsetsFrom acc l).getD l.length 0 = acc + (l.map VideoPart.duration).sum := by
  intro l
  induction l generalizing acc with
  | nil => simp [offsetsFrom]
  | cons p rest ih =>
    simp only [offsetsFrom, List.length_cons, List.getD_cons_succ, ih, List.map_cons,
      List.sum_cons]
    ring

/-- `offsets[sources.length]` is the total duration. -/
theorem offsets_getD_last (sources : List VideoPart) :
    (offsets sources).getD sources.length 0 = sumDur sources := by
  have h := offsetsFrom_getD_last 0 sources
  rw [offsets, h, sumDur, zero_add]

/-- The countdown loop returns an index strictly below its bound. -/
theorem partForTimeGo_lt (sources : List VideoPart) (t : ℚ) :
    ∀ n, 0 < n → partForTimeGo sources t n < n := by
  intro n
  induction n with
  | zero => omega
  | succ n ih =>
    intro _
    rw [partForTimeGo]
    split
    · exact Nat.lt_succ_self n
    · match n, ih with
      | 0, _ => exact Nat.lt_succ_self 0
      | m + 1, ih => exact Nat.lt_succ_of_lt (ih (Nat.succ_pos m))

/-- Maximality: every index above the returned one (and below the bound)
has an offset strictly greater than `t`. -/
theorem partForTimeGo_max (sources : List VideoPart) (t : ℚ) :
    ∀ n j, partForTimeGo sources t n < j → j < n →
      ¬((offsets sources).getD j 0 ≤ t) := by
  intro n
  induction n with
  | zero => omega
  | succ n ih =>
    intro j hgt hlt
    rw [partForTimeGo] at hgt
    by_cases hc : (offsets sources).getD n 0 ≤ t
    · rw [if_pos hc] at hgt
      omega
    · rw [if_neg hc] at hgt
      rcases Nat.lt_succ_iff_lt_or_eq.mp hlt with hj | rfl
      · exact ih j hgt hj
      · exact hc

/-- Soundness: when `t` is nonnegative, the offset at the returned index
is at most `t`. -/
theorem partForTimeGo_sound (sources : List VideoPart) (t : ℚ) (h0 : 0 ≤ t) :
    ∀ n, (offsets sources).getD (partForTimeGo sources t n) 0 ≤ t := by
  intro n
  induction n with
  | zero =>
    rw [partForTimeGo, offsets_getD_zero]
    exact h0
  | succ n ih =>
    rw [partForTimeGo]
    split
    · assumption
    · exact ih

/-- When every checked offset exceeds `t`, the loop falls through to 0. -/
theorem partForTimeGo_all_above (sources : List VideoPart) (t : ℚ) :
    ∀ n, (∀ j, j < n → ¬((offsets sources).getD j 0 ≤ t)) →
      partForTimeGo sources t n = 0 := by
  intro n
  induction n with
  | zero => intro _; rfl
  | succ n ih =>
    intro hall
    rw [partForTimeGo, if_neg (hall n (Nat.lt_succ_self n))]
    exact ih fun j hj => hall j (Nat.lt_succ_of_lt hj)

/-- Adjacent offsets are non-decreasing when durations are nonnegative. -/
theorem offsetsFrom_getD_step (acc : ℚ) :
    ∀ l : List VideoPart, (∀ p ∈ l, 0 ≤ p.duration) →
      ∀ j, j < l.length →
        (offsetsFrom acc l).getD j 0 ≤ (offsetsFrom acc l).getD (j + 1) 0 := by
  intro l
  induction l generalizing acc with
  | nil => intro _ j hj; simp at hj
  | cons p rest ih =>
    intro hdur j hj
    match j with
    | 0 =>
      show (offsetsFrom acc (p :: rest)).getD 0 0
        ≤ (offsetsFrom acc (p :: rest)).getD 1 0
      rw [offsetsFrom, List.getD_cons_zero, List.getD_cons_succ,
        offsetsFrom_getD_zero]
      have := hdur p (List.mem_cons_self p rest)
      linarith
    | k + 1 =>
      rw [offsetsFrom, List.getD_cons_succ, List.getD_cons_succ]
      exact ih (acc + p.duration) (fun x hx => hdur x (List.mem_cons_of_mem _ hx))
        k (by simpa using hj)

/-- The second-to-last offset is at most the total duration. -/
theorem offsets_getD_penult_le (sources : List VideoPart)
    (hlen : 0 < sources.length) (hdur : ∀ p ∈ sources, 0 ≤ p.duration) :
    (offsets sources).getD (sources.length - 1) 0 ≤ sumDur sources := by
  rw [← offsets_getD_last]
  have h := offsetsFrom_getD_step 0 sources hdur (sources.length - 1) (by omega)
  rwa [Nat.sub_add_cancel hlen] at h

/-- When `t` is at or beyond the last offset, `partForTime` returns the
last part index. -/
theorem partForTime_at_last (sources : List VideoPart) (t : ℚ)
    (hlen : 0 < sources.length)
    (hle : (offsets sources).getD (sources.length - 1) 0 ≤ t) :
    partForTime sources t = sources.length - 1 := by
  obtain ⟨m, hm⟩ : ∃ m, sources.length = m + 1 := ⟨sources.length - 1, by omega⟩
  rw [partForTime, hm]
  rw [hm] at hle
  simp only [Nat.add_sub_cancel] at hle ⊢
  rw [partForTimeGo, if_pos hle]

/-! ## Claim theorems: seamless player -/

/-- C9: for nonnegative part durations and `t ∈ [0, totalDuration]`,
`partForTime` returns the greatest index whose offset is at most `t`, and
`offsets[partForTime(t)] ≤ t < offsets[partForTime(t)+1]` holds — except
that at the final boundary `t = totalDuration` the strict upper bound is
replaced by equality with the total duration (and the last part index is
returned). -/
theorem partForTime_offset_invariant (sources : List VideoPart) (t : ℚ)
    (hne : sources ≠ []) (hdur : ∀ p ∈ sources, 0 ≤ p.duration)
    (h0 : 0 ≤ t) (hle : t ≤ sumDur sources) :
    (offsets sources).getD (partForTime sources t) 0 ≤ t
      ∧ (∀ j, j < sources.length → (offsets sources).getD j 0 ≤ t →
          j ≤ partForTime sources t)
      ∧ (t < (offsets sources).getD (partForTime sources t + 1) 0
          ∨ t = sumDur sources)
      ∧ (t = sumDur sources → partForTime sources t = sources.length - 1) := by
  have hlen : 0 < sources.length := List.length_pos.mpr hne
  refine ⟨partForTimeGo_sound sources t h0 _, ?_, ?_, ?_⟩
  · intro j hj hoff
    by_contra hgt
    push_neg at hgt
    exact partForTimeGo_max sources t sources.length j hgt hj hoff
  · rcases eq_or_lt_of_le hle with heq | hlt
    · exact Or.inr heq
    · left
      rcases Nat.lt_or_ge (partForTime sources t + 1) sources.length with hlt2 | hge
      · by_contra hc
        push_neg at hc
        exact partForTimeGo_max sources t sources.length (partForTime sources t + 1)
          (Nat.lt_succ_self _) hlt2 hc
      · have hi : partForTime sources t < sources.length :=
          partForTimeGo_lt sources t _ hlen
        have heq : partForTime sources t + 1 = sources.length := by omega
        rw [heq, offsets_getD_last]
        exact hlt
  · intro heq
    refine partForTime_at_last sources t hlen ?_
    rw [heq]
    exact offsets_getD_penult_le sources hlen hdur

/-- Witness for `partForTime_offset_invariant`: two parts of durations 5
and 7, queried at unified time 6, which falls in part 1 (offset 5). -/
theorem partForTime_offset_invariant_witness :
    (offsets [(⟨"a".data, 5⟩ : VideoPart), ⟨"b".data, 7⟩]).getD
        (partForTime [(⟨"a".data, 5⟩ : VideoPart), ⟨"b".data, 7⟩] 6) 0 ≤ 6 :=
  (partForTime_offset_invariant [⟨"a".data, 5⟩, ⟨"b".data, 7⟩] 6 (by simp)
    (by intro p hp; rcases List.mem_cons.mp hp with rfl | hp'
        · norm_num
        · rcases List.mem_cons.mp hp' with rfl | hp''
          · norm_num
          · simp at hp'')
    (by norm_num) (by simp [sumDur]; norm_num)).1

/-- C10: `partForTime` is total and always in bounds — for every rational
`t`, including `t < 0` and `t` beyond the total duration, the returned
index is below `sources.length` (so `sources[i]`/`offsets[i]` accesses
stay in bounds); it is 0 when `t` lies strictly below every offset and the
last part index when `t` is at or beyond the last offset; and the
component's derived source list is never empty. -/
theorem partForTime_total_inbounds (sources : List VideoPart) (t : ℚ)
    (hne : sources ≠ []) :
    partForTime sources t < sources.length
      ∧ ((∀ j, j < sources.length → t < (offsets sources).getD j 0) →
          partForTime sources t = 0)
      ∧ ((offsets sources).getD (sources.length - 1) 0 ≤ t →
          partForTime sources t = sources.length - 1)
      ∧ ∀ (url : Ident) (ps : Option (List VideoPart)) (td : ℚ),
          sourcesFor url ps td ≠ [] := by
  have hlen : 0 < sources.length := List.length_pos.mpr hne
  refine ⟨partForTimeGo_lt sources t _ hlen, ?_, ?_, ?_⟩
  · intro hall
    exact partForTimeGo_all_above sources t _ fun j hj => not_le.mpr (hall j hj)
  · exact partForTime_at_last sources t hlen
  · intro url ps td
    match ps with
    | none => simp [sourcesFor]
    | some l =>
      rw [sourcesFor]
      split
      · rename_i hlen1
        intro hcon
        rw [hcon] at hlen1
        simp at hlen1
      · simp

/-- Witness for `partForTime_total_inbounds`: a single part queried at
the out-of-range time `-1` still yields an in-bounds index. -/
theorem partForTime_total_inbounds_witness :
    partForTime [(⟨"u".data, 4⟩ : VideoPart)] (-1)
      < ([(⟨"u".data, 4⟩ : VideoPart)]).length :=
  (partForTime_total_inbounds [⟨"u".data, 4⟩] (-1) (by simp)).1
